import Mathlib

/-!
Verification of the Wave2Music client-side audio pipeline.

The definitions below are shallow embeddings of the program's functions:

* `getAudioDuration` — the three-strategy duration resolver of
  `src/stores/projectStore.ts` and `src/stores/trackStore.ts` (both files hold
  the same function).  The two decode strategies (media-element metadata and
  Web-Audio full decode) interact with the platform, so their outcome is an
  input of the embedding: `some d` when the strategy reported duration `d`,
  `none` when it errored out or timed out.  Durations are rationals (every
  JavaScript float that can appear here is a rational; `NaN`/`Infinity`
  reports are covered by the `none` case since the handlers refuse them).
* `persistedStatus` — the status written back by `checkTransformationStatus`
  of `src/stores/aiStore.ts`.
* `selectMimeType` / `stopRecordingBlob` — the encoder-container probe of
  `startRecording` and the blob assembly of `stopRecording` in
  `src/hooks/useAudioRecorder.ts`.
-/

/-- Strategy 3 of `getAudioDuration` (`tryEstimateFromSize`): the byte-size
estimate `size * 8 / (128 * 1000)` in seconds. -/
def sizeEstimate (sizeBytes : ℕ) : ℚ :=
  (sizeBytes * 8 : ℚ) / (128 * 1000)

/-- Strategy 3 of `getAudioDuration`: resolve with the estimate when it is
strictly between 0 and 3600 seconds, otherwise reject (`none`). -/
def tryEstimateFromSize (sizeBytes : ℕ) : Option ℚ :=
  let estimatedDuration := sizeEstimate sizeBytes
  if 0 < estimatedDuration ∧ estimatedDuration < 3600 then some estimatedDuration
  else none

/-- Strategy 2 of `getAudioDuration` (`tryWebAudioAPI`): `decoded` is the
duration read from the decoded buffer (`none` when `decodeAudioData` failed).
A finite positive duration resolves; anything else falls through to the
size estimate. -/
def tryWebAudioAPI (decoded : Option ℚ) (sizeBytes : ℕ) : Option ℚ :=
  match decoded with
  | some d => if 0 < d then some d else tryEstimateFromSize sizeBytes
  | none => tryEstimateFromSize sizeBytes

/-- The duration resolver of `projectStore.ts` / `trackStore.ts`.  `metadata`
is the duration reported by the media-element strategy (`none` on error or
5-second timeout); a finite positive report resolves, anything else falls
through to the Web-Audio strategy and then to the size estimate. -/
def getAudioDuration (metadata decoded : Option ℚ) (sizeBytes : ℕ) : Option ℚ :=
  match metadata with
  | some d => if 0 < d then some d else tryWebAudioAPI decoded sizeBytes
  | none => tryWebAudioAPI decoded sizeBytes

/-- A decode strategy is exhausted when it reported no finite positive
duration. -/
def strategyFails (r : Option ℚ) : Prop :=
  ∀ d : ℚ, r = some d → ¬ 0 < d

theorem tryEstimateFromSize_eq_none_iff (sizeBytes : ℕ) :
    tryEstimateFromSize sizeBytes = none ↔
      ¬ (0 < sizeEstimate sizeBytes ∧ sizeEstimate sizeBytes < 3600) := by
  by_cases h : 0 < sizeEstimate sizeBytes ∧ sizeEstimate sizeBytes < 3600 <;>
    simp [tryEstimateFromSize, h]

theorem strategyFails_none : strategyFails (none : Option ℚ) := by
  intro d hd
  cases hd

theorem strategyFails_some_of_nonpos {d : ℚ} (hd : ¬ 0 < d) :
    strategyFails (some d) := by
  intro e he
  cases he
  exact hd

theorem not_strategyFails_some {d : ℚ} (hd : 0 < d) :
    ¬ strategyFails (some d) :=
  fun h => absurd hd (h d rfl)

theorem tryWebAudioAPI_eq_none_iff (decoded : Option ℚ) (sizeBytes : ℕ) :
    tryWebAudioAPI decoded sizeBytes = none ↔
      strategyFails decoded ∧
        ¬ (0 < sizeEstimate sizeBytes ∧ sizeEstimate sizeBytes < 3600) := by
  cases decoded with
  | none =>
    simp [tryWebAudioAPI, strategyFails_none, tryEstimateFromSize_eq_none_iff]
  | some d =>
    by_cases hd : 0 < d
    · simp [tryWebAudioAPI, hd, not_strategyFails_some hd]
    · simp [tryWebAudioAPI, hd, strategyFails_some_of_nonpos hd,
        tryEstimateFromSize_eq_none_iff]

theorem tryWebAudioAPI_of_fails (decoded : Option ℚ) (sizeBytes : ℕ)
    (h : strategyFails decoded) :
    tryWebAudioAPI decoded sizeBytes = tryEstimateFromSize sizeBytes := by
  cases decoded with
  | none => rfl
  | some d => simp [tryWebAudioAPI, h d rfl]

/-- C1: the duration resolver rejects exactly when all three strategies are
exhausted, and once both decode strategies have failed it resolves with the
byte-size estimate `size * 8 / 128000` precisely when that estimate lies
strictly between 0 and 3600 seconds, rejecting otherwise. -/
theorem c1_duration_resolver (metadata decoded : Option ℚ) (sizeBytes : ℕ) :
    (getAudioDuration metadata decoded sizeBytes = none ↔
        strategyFails metadata ∧ strategyFails decoded ∧
          ¬ (0 < sizeEstimate sizeBytes ∧ sizeEstimate sizeBytes < 3600))
    ∧ (strategyFails metadata → strategyFails decoded →
        getAudioDuration metadata decoded sizeBytes =
          if 0 < sizeEstimate sizeBytes ∧ sizeEstimate sizeBytes < 3600
          then some (sizeEstimate sizeBytes) else none) := by
  constructor
  · cases metadata with
    | none =>
      simp [getAudioDuration, strategyFails_none, tryWebAudioAPI_eq_none_iff]
    | some d =>
      by_cases hd : 0 < d
      · simp [getAudioDuration, hd, not_strategyFails_some hd]
      · simp [getAudioDuration, hd, strategyFails_some_of_nonpos hd,
          tryWebAudioAPI_eq_none_iff]
  · intro hm hd
    have hrw : getAudioDuration metadata decoded sizeBytes
        = tryEstimateFromSize sizeBytes := by
      cases metadata with
      | none =>
        simpa [getAudioDuration] using tryWebAudioAPI_of_fails decoded sizeBytes hd
      | some d =>
        simp [getAudioDuration, hm d rfl, tryWebAudioAPI_of_fails decoded sizeBytes hd]
    rw [hrw]
    rfl

/-- Witness for C1: with both decode strategies failed and a 16000-byte blob,
the resolver returns the estimate `16000 * 8 / 128000 = 1` second. -/
theorem c1_duration_resolver_witness :
    getAudioDuration none none 16000 = some 1 := by
  have h := (c1_duration_resolver none none 16000).2
    (by intro d hd; cases hd) (by intro d hd; cases hd)
  rw [h]
  norm_num [sizeEstimate]

/-- From `checkTransformationStatus` in `src/stores/aiStore.ts`: the status
written back to the `ai_transformations` row for a given inference status.
The response status is stored verbatim (`updates.status = statusResponse.status`,
a bare type cast) except that `succeeded` is replaced by `completed`. -/
def persistedStatus (replicateStatus : String) : String :=
  if replicateStatus = "succeeded" then "completed" else replicateStatus

/-- The persisted vocabulary: the `ai_transformations_status_check` constraint
of migration `20250630220409_ancient_villa.sql`, also the declared TypeScript
union of `AITransformation.status`. -/
def allowedStatuses : List String :=
  ["pending", "processing", "completed", "failed", "cancelled"]

/-- C7 evaluation at the failing inputs: the inference statuses `starting` and
`canceled` are persisted verbatim, and neither is in the persisted vocabulary;
only `succeeded` is remapped (to `completed`). -/
theorem c7_status_persisted_verbatim :
    persistedStatus "starting" = "starting"
    ∧ "starting" ∉ allowedStatuses
    ∧ persistedStatus "canceled" = "canceled"
    ∧ "canceled" ∉ allowedStatuses
    ∧ persistedStatus "succeeded" = "completed" := by
  refine ⟨by decide, by decide, by decide, by decide, by decide⟩

/-- The ordered container preference list probed by `startRecording` in
`src/hooks/useAudioRecorder.ts`. -/
def supportedTypes : List String :=
  ["audio/webm;codecs=opus", "audio/webm", "audio/mp4", "audio/ogg;codecs=opus",
   "audio/wav"]

/-- Encoder-container selection of `startRecording`: the first entry of
`supportedTypes` that the platform reports as supported. -/
def selectMimeType (isTypeSupported : String → Bool) : Option String :=
  supportedTypes.find? isTypeSupported

/-- A finished recording: the accumulated 100 ms chunks and the MIME hint the
blob is constructed with. -/
structure RecordedBlob where
  chunks : List (List ℕ)
  mimeType : String

/-- From `stopRecording`: `new Blob(chunksRef.current, type: audio/webm)` —
the blob is always assembled with the fixed MIME hint `audio/webm`. -/
def stopRecordingBlob (chunks : List (List ℕ)) : RecordedBlob :=
  { chunks := chunks, mimeType := "audio/webm" }

/-- C10: the blob resolved by `stopRecording` always carries the fixed MIME
hint `audio/webm`, even though `startRecording` can commit to a different
container (e.g. a platform supporting only `audio/mp4` selects `audio/mp4`),
so the blob's MIME hint does not reflect the committed encoder container. -/
theorem c10_blob_mime_fixed (chunks : List (List ℕ)) :
    (stopRecordingBlob chunks).mimeType = "audio/webm"
    ∧ selectMimeType (fun t => t == "audio/mp4") = some "audio/mp4"
    ∧ ("audio/mp4" : String) ≠ "audio/webm" := by
  refine ⟨rfl, by decide, by decide⟩

/-!
Multi-track transport model (`src/components/studio/MultiTrackPlayer.tsx`)
and the track store's solo operation (`src/stores/trackStore.ts`).  Only the
playback-relevant fields of a `Track` row are embedded.
-/

/-- Playback-relevant fields of a persisted track row. -/
structure Track where
  id : ℕ
  volume : ℚ
  is_muted : Bool
  is_solo : Bool
  duration_seconds : ℚ
deriving DecidableEq

/-- Whether some track of the list is soloed (`tracks.some(t => t.is_solo)`). -/
def anySolo (tracks : List Track) : Bool :=
  tracks.any (fun t => t.is_solo)

/-- Track-settings effect of `MultiTrackPlayer`: the volume assigned to the
playback element of track `t`
(`audio.volume = track.volume * masterVolume * (track.is_muted ? 0 : 1)`). -/
def elementVolume (t : Track) (masterVolume : ℚ) : ℚ :=
  t.volume * masterVolume * (if t.is_muted then 0 else 1)

/-- Track-settings effect of `MultiTrackPlayer`: the muted flag assigned to the
playback element of track `t`
(`audio.muted = track.is_muted || (tracks.some(t => t.is_solo) && !track.is_solo)`). -/
def elementMuted (tracks : List Track) (t : Track) : Bool :=
  t.is_muted || (anySolo tracks && !t.is_solo)

/-- Spec §4.6 audibility rule, written from the spec's words: a track is
audible iff it is not muted and either no track is soloed or this track is
soloed. -/
def specAudible (tracks : List Track) (t : Track) : Bool :=
  !t.is_muted && (!(anySolo tracks) || t.is_solo)

/-- Spec §4.6 effective-gain rule, written from the spec's words. -/
def specEffectiveGain (t : Track) (masterVolume : ℚ) : ℚ :=
  t.volume * masterVolume * (if t.is_muted then 0 else 1)

/-- C4: every track element gets volume `volume × masterVolume × (muted ? 0 : 1)`
and a muted flag set exactly when `is_muted || (anySolo && !is_solo)`, which is
equivalent to the spec's audibility rule
`!is_muted && (no solo anywhere || this track soloed)`. -/
theorem c4_track_settings (tracks : List Track) (t : Track) (masterVolume : ℚ) :
    elementVolume t masterVolume = specEffectiveGain t masterVolume
    ∧ elementMuted tracks t = (t.is_muted || (anySolo tracks && !t.is_solo))
    ∧ (elementMuted tracks t = false ↔ specAudible tracks t = true) := by
  refine ⟨rfl, rfl, ?_⟩
  cases ht : t.is_muted <;> cases hs : anySolo tracks <;> cases hsolo : t.is_solo <;>
    simp [elementMuted, specAudible, ht, hs, hsolo]

/-- From `soloTrack` in `src/stores/trackStore.ts`, solo case: the chosen
track gets `is_solo := true, is_muted := false`; every other track gets
`is_solo := false` (its mute flag untouched). -/
def applySolo (trackId : ℕ) (t : Track) : Track :=
  if t.id = trackId then { t with is_solo := true, is_muted := false }
  else { t with is_solo := false }

/-- From `soloTrack` in `src/stores/trackStore.ts`: the whole store update.
When `solo` is false only the chosen track's `is_solo` flag is cleared. -/
def soloTrack (tracks : List Track) (trackId : ℕ) (solo : Bool) : List Track :=
  if solo then tracks.map (applySolo trackId)
  else tracks.map (fun t => if t.id = trackId then { t with is_solo := false } else t)

theorem applySolo_is_solo (trackId : ℕ) (t : Track) :
    (applySolo trackId t).is_solo = decide (t.id = trackId) := by
  by_cases h : t.id = trackId <;> simp [applySolo, h]

/-- C9: after `soloTrack(trackId, true)`, assuming track ids are not
duplicated, at most one track is soloed; every soloed track is the chosen one,
the chosen one is soloed and unmuted, every other track is unsoloed; and
`soloTrack(trackId, false)` rewrites each position to itself except that the
chosen track's solo flag is cleared. -/
theorem c9_solo_postcondition (tracks : List Track) (trackId : ℕ)
    (huniq : (tracks.filter (fun t => t.id = trackId)).length ≤ 1) :
    ((soloTrack tracks trackId true).filter (fun t => t.is_solo)).length ≤ 1
    ∧ (∀ t ∈ soloTrack tracks trackId true, t.is_solo = true → t.id = trackId)
    ∧ (∀ t ∈ soloTrack tracks trackId true,
        t.id = trackId → t.is_solo = true ∧ t.is_muted = false)
    ∧ (∀ t ∈ soloTrack tracks trackId true, t.id ≠ trackId → t.is_solo = false)
    ∧ (∀ i : ℕ, (soloTrack tracks trackId false)[i]? =
        (tracks[i]?).map
          (fun t => if t.id = trackId then { t with is_solo := false } else t)) := by
  refine ⟨?_, ?_, ?_, ?_, ?_⟩
  · have hfilter : (soloTrack tracks trackId true).filter (fun t => t.is_solo)
        = ((tracks.filter (fun t => t.id = trackId)).map (applySolo trackId)) := by
      simp only [soloTrack, if_pos, List.filter_map]
      congr 1
      apply List.filter_congr
      intro t _
      simp [Function.comp, applySolo_is_solo]
    rw [hfilter, List.length_map]
    exact huniq
  · intro t ht hsolo
    simp only [soloTrack, if_pos, List.mem_map] at ht
    obtain ⟨s, _, rfl⟩ := ht
    by_cases h : s.id = trackId
    · simp [applySolo, h]
    · simp [applySolo, h] at hsolo
  · intro t ht hid
    simp only [soloTrack, if_pos, List.mem_map] at ht
    obtain ⟨s, _, rfl⟩ := ht
    by_cases h : s.id = trackId
    · simp [applySolo, h]
    · simp [applySolo, h] at hid
  · intro t ht hid
    simp only [soloTrack, if_pos, List.mem_map] at ht
    obtain ⟨s, _, rfl⟩ := ht
    by_cases h : s.id = trackId
    · simp [applySolo, h] at hid
    · simp [applySolo, h]
  · intro i
    simp [soloTrack, List.getElem?_map]

/-- Witness for C9: soloing track 0 in a two-track store leaves exactly the
chosen track soloed and unmuted. -/
theorem c9_solo_postcondition_witness :
    (((soloTrack [⟨0, 1, true, false, 3⟩, ⟨1, 1, false, true, 5⟩] 0 true).filter
        (fun t => t.is_solo)).length ≤ 1)
    ∧ ((soloTrack [⟨0, 1, true, false, 3⟩, ⟨1, 1, false, true, 5⟩] 0 false)[0]? =
        (([⟨0, 1, true, false, 3⟩, ⟨1, 1, false, true, 5⟩] :
            List Track)[0]?).map
          (fun t => if t.id = 0 then { t with is_solo := false } else t)) := by
  have h := c9_solo_postcondition
    [⟨0, 1, true, false, 3⟩, ⟨1, 1, false, true, 5⟩] 0 (by decide)
  exact ⟨h.1, h.2.2.2.2 0⟩

/-- A soloed track that is also individually muted, for the C8 counterexample. -/
def trackSoloMutedA : Track := ⟨0, 1, true, true, 1⟩

/-- A plain (unsoloed, unmuted) track B. -/
def trackPlainB : Track := ⟨1, 1, false, false, 1⟩

/-- A plain (unsoloed, unmuted) track C. -/
def trackPlainC : Track := ⟨2, 1, false, false, 1⟩

/-- C8 counterexample: with A soloed but muted and B, C unsoloed, the transport
marks A's element muted (silent), so a soloed track's audibility does depend on
its own mute flag, contrary to the claim. -/
theorem c8_counterexample :
    trackSoloMutedA.is_solo = true
    ∧ trackPlainB.is_solo = false
    ∧ trackPlainC.is_solo = false
    ∧ elementMuted [trackSoloMutedA, trackPlainB, trackPlainC] trackSoloMutedA = true
    ∧ specAudible [trackSoloMutedA, trackPlainB, trackPlainC] trackSoloMutedA = false
    ∧ elementVolume trackSoloMutedA 1 = 0 := by
  refine ⟨rfl, rfl, rfl, by decide, by decide, ?_⟩
  norm_num [elementVolume, trackSoloMutedA]

/-- C8 amended: if the soloed track A is not individually muted (which is
exactly the state `soloTrack(_, true)` establishes, since it clears A's mute
flag), then the transport renders A audible and every unsoloed track silent. -/
theorem c8_solo_audibility (tracks : List Track) (a : Track)
    (ha_mem : a ∈ tracks) (ha_solo : a.is_solo = true) (ha_unmuted : a.is_muted = false) :
    elementMuted tracks a = false
    ∧ specAudible tracks a = true
    ∧ (∀ t ∈ tracks, t.is_solo = false → elementMuted tracks t = true) := by
  have hany : anySolo tracks = true := by
    simp only [anySolo, List.any_eq_true]
    exact ⟨a, ha_mem, ha_solo⟩
  refine ⟨?_, ?_, ?_⟩
  · simp [elementMuted, ha_unmuted, ha_solo]
  · simp [specAudible, ha_unmuted, ha_solo]
  · intro t _ ht_solo
    simp [elementMuted, hany, ht_solo]

/-- Witness for C8's amended statement: track 0 soloed and unmuted, track 1
unsoloed; the transport unmutes track 0's element and mutes track 1's. -/
theorem c8_solo_audibility_witness :
    elementMuted [⟨0, 1, false, true, 2⟩, trackPlainB] ⟨0, 1, false, true, 2⟩ = false
    ∧ elementMuted [⟨0, 1, false, true, 2⟩, trackPlainB] trackPlainB = true := by
  have h := c8_solo_audibility [⟨0, 1, false, true, 2⟩, trackPlainB]
    ⟨0, 1, false, true, 2⟩ (by simp) rfl rfl
  exact ⟨h.1, h.2.2 trackPlainB (by simp) rfl⟩

/-- The mutable fields of one per-track playback element used by the
transport's tick loop. -/
structure AudioElement where
  paused : Bool
  currentTime : ℚ
deriving DecidableEq

/-- The transport's logical state: playback elements, the playing flag, the
logical playhead and the logical duration. -/
structure TransportState where
  elements : List AudioElement
  isPlaying : Bool
  currentTime : ℚ
  duration : ℚ
deriving DecidableEq

/-- Duration effect of `MultiTrackPlayer`:
`Math.max(0, ...tracks.map(t => t.duration_seconds))`. -/
def masterDuration (tracks : List Track) : ℚ :=
  (tracks.map (fun t => t.duration_seconds)).foldl max 0

/-- The spec's notion of logical duration, written from the spec's words:
the maximum of the individual track durations, 0 when there are none. -/
def specMaxDuration (tracks : List Track) : ℚ :=
  match tracks.map (fun t => t.duration_seconds) with
  | [] => 0
  | d :: ds => ds.foldl max d

/-- One pass of `updateTime` in `MultiTrackPlayer`: when playing, the playhead
copies the first non-paused element's time; when that time has reached the
logical duration, the playing flag and the playhead are cleared and every
element is rewound to 0 and paused. -/
def updateTime (st : TransportState) : TransportState :=
  if st.isPlaying then
    match st.elements.find? (fun a => !a.paused) with
    | some playingAudio =>
      if st.duration ≤ playingAudio.currentTime then
        { st with
          isPlaying := false
          currentTime := 0
          elements := st.elements.map (fun a => { a with currentTime := 0, paused := true }) }
      else { st with currentTime := playingAudio.currentTime }
    | none => st
  else st

theorem foldl_max_zero_of_nonneg {α : Type} [LinearOrder α] [Zero α]
    (d : α) (ds : List α) (hd : (0 : α) ≤ d) :
    (d :: ds).foldl max 0 = ds.foldl max d := by
  simp [List.foldl_cons, max_eq_right hd]

/-- C5: the transport's logical duration is the maximum of the loaded tracks'
durations (0 when there are none), and one `updateTime` pass in which the
progressing element has reached that duration clears the playing flag, resets
the logical playhead, and pauses and rewinds every element. -/
theorem c5_transport_stop_and_rewind (tracks : List Track) (st : TransportState)
    (playingAudio : AudioElement)
    (hnn : ∀ t ∈ tracks, 0 ≤ t.duration_seconds)
    (hplay : st.isPlaying = true)
    (hfind : st.elements.find? (fun a => !a.paused) = some playingAudio)
    (hend : st.duration ≤ playingAudio.currentTime) :
    masterDuration tracks = specMaxDuration tracks
    ∧ masterDuration [] = 0
    ∧ (updateTime st).isPlaying = false
    ∧ (updateTime st).currentTime = 0
    ∧ (∀ e ∈ (updateTime st).elements, e.paused = true ∧ e.currentTime = 0) := by
  refine ⟨?_, rfl, ?_, ?_, ?_⟩
  · cases htr : tracks with
    | nil => rfl
    | cons t ts =>
      have hd : (0 : ℚ) ≤ t.duration_seconds := hnn t (by simp [htr])
      simp only [masterDuration, specMaxDuration, List.map_cons]
      exact foldl_max_zero_of_nonneg _ _ hd
  · simp [updateTime, hplay, hfind, hend]
  · simp [updateTime, hplay, hfind, hend]
  · intro e he
    simp only [updateTime, hplay, if_true, hfind, if_pos hend, List.mem_map] at he
    obtain ⟨a, _, rfl⟩ := he
    exact ⟨rfl, rfl⟩

/-- Witness for C5: three tracks of durations 3, 5, 2 give logical duration 5;
a tick whose progressing element sits at time 5 stops and rewinds. -/
theorem c5_transport_stop_and_rewind_witness :
    masterDuration [⟨0, 1, false, false, 3⟩, ⟨1, 1, false, false, 5⟩,
        ⟨2, 1, false, false, 2⟩] = 5
    ∧ (updateTime ⟨[⟨false, 5⟩, ⟨true, 2⟩], true, 5, 5⟩).isPlaying = false
    ∧ (updateTime ⟨[⟨false, 5⟩, ⟨true, 2⟩], true, 5, 5⟩).currentTime = 0 := by
  have h := c5_transport_stop_and_rewind
    [⟨0, 1, false, false, 3⟩, ⟨1, 1, false, false, 5⟩, ⟨2, 1, false, false, 2⟩]
    ⟨[⟨false, 5⟩, ⟨true, 2⟩], true, 5, 5⟩ ⟨false, 5⟩
    (by intro t ht; fin_cases ht <;> norm_num)
    rfl (by rfl) (by norm_num)
  refine ⟨?_, h.2.2.1, h.2.2.2.1⟩
  rw [h.1]
  norm_num [specMaxDuration]

/-- The fields of a track row that `createTrack`'s limit check and order
assignment read and write. -/
structure TrackRow where
  project_id : ℕ
  track_order : ℤ
deriving DecidableEq

/-- From `createTrack` in `src/stores/trackStore.ts`: the store's tracks after
the call together with the error message, if any.  The limit check fires when
the project already holds 10 or more tracks; otherwise the new track gets
`track_order = Math.max(0, ...existing orders) + 1` and is appended. -/
def createTrack (tracks : List TrackRow) (projectId : ℕ) :
    List TrackRow × Option String :=
  let existingTracks := tracks.filter (fun t => t.project_id = projectId)
  if 10 ≤ existingTracks.length then
    (tracks, some "Maximum of 10 tracks per project allowed")
  else
    let maxOrder := (existingTracks.map (fun t => t.track_order)).foldl max 0
    (tracks ++ [⟨projectId, maxOrder + 1⟩], none)

/-- The spec's order rule, written from the spec's words: the maximum
`track_order` among the project's existing tracks, 0 when there are none. -/
def specMaxOrder (orders : List ℤ) : ℤ :=
  match orders with
  | [] => 0
  | d :: ds => ds.foldl max d

/-- C6: with 10 or more tracks already in the project, `createTrack` reports
the limit error and leaves the store unchanged; otherwise (assuming existing
orders are nonnegative, as every order the code ever writes is positive) it
appends one track whose order is the maximum existing order (0 if none)
plus 1. -/
theorem c6_create_track (tracks : List TrackRow) (projectId : ℕ)
    (hnn : ∀ t ∈ tracks, 0 ≤ t.track_order) :
    (10 ≤ (tracks.filter (fun t => t.project_id = projectId)).length →
      createTrack tracks projectId =
        (tracks, some "Maximum of 10 tracks per project allowed"))
    ∧ ((tracks.filter (fun t => t.project_id = projectId)).length < 10 →
      createTrack tracks projectId =
        (tracks ++ [⟨projectId,
          specMaxOrder
            ((tracks.filter (fun t => t.project_id = projectId)).map
              (fun t => t.track_order)) + 1⟩], none)) := by
  constructor
  · intro hge
    simp [createTrack, hge]
  · intro hlt
    have hmax : ((tracks.filter (fun t => t.project_id = projectId)).map
        (fun t => t.track_order)).foldl max 0 =
        specMaxOrder ((tracks.filter (fun t => t.project_id = projectId)).map
          (fun t => t.track_order)) := by
      cases hfl : (tracks.filter (fun t => t.project_id = projectId)).map
          (fun t => t.track_order) with
      | nil => rfl
      | cons d ds =>
        have hd : (0 : ℤ) ≤ d := by
          have hdmem : d ∈ (tracks.filter (fun t => t.project_id = projectId)).map
              (fun t => t.track_order) := by
            rw [hfl]; simp
          obtain ⟨t, ht, rfl⟩ := List.mem_map.mp hdmem
          exact hnn t (List.mem_of_mem_filter ht)
        exact foldl_max_zero_of_nonneg d ds hd
    simp [createTrack, Nat.not_le.mpr hlt, hmax]

/-- Witness for C6: creating the first track of a project assigns order 1 on
an empty store, and an 11th insertion into a full project is rejected. -/
theorem c6_create_track_witness :
    createTrack [] 7 = ([⟨7, 1⟩], none)
    ∧ createTrack (List.replicate 10 ⟨7, 1⟩) 7 =
        (List.replicate 10 ⟨7, 1⟩, some "Maximum of 10 tracks per project allowed") := by
  constructor
  · have h := (c6_create_track [] 7 (by intro t ht; cases ht)).2 (by decide)
    simpa [specMaxOrder] using h
  · exact (c6_create_track (List.replicate 10 ⟨7, 1⟩) 7
      (by intro t ht; simp_all [List.mem_replicate])).1 (by decide)

/-- The five effect kinds of the effects panel (`EffectsPanel`). -/
inductive EffectKind
  | equalizer
  | compressor
  | reverb
  | delay
  | chorus
deriving DecidableEq

/-- From `toggleEffect` in the effects panel: an already active effect is
removed; a newly activated effect is appended at the end of the active list
(`[...prev, effectName]`). -/
def toggleEffect (activeEffects : List EffectKind) (e : EffectKind) : List EffectKind :=
  if e ∈ activeEffects then activeEffects.filter (fun x => x ≠ e)
  else activeEffects ++ [e]

/-- Equalizer parameters (`lowGain`, `midGain`, `highGain`, in dB). -/
structure EqualizerParams where
  lowGain : ℚ
  midGain : ℚ
  highGain : ℚ
deriving DecidableEq

/-- Compressor parameters (threshold in dB, ratio, attack, release). -/
structure CompressorParams where
  threshold : ℚ
  ratio : ℚ
  attack : ℚ
  release : ℚ
deriving DecidableEq

/-- The fixed-shape parameter record of the effects panel (only the fields the
order-sensitivity claim touches are carried per effect; the remaining effects
keep their wet/dry levels). -/
structure EffectParameters where
  equalizer : EqualizerParams
  compressor : CompressorParams
  reverbWetLevel : ℚ
  reverbDryLevel : ℚ
  delayWetLevel : ℚ
  delayDryLevel : ℚ
  chorusWetLevel : ℚ
  chorusDryLevel : ℚ
deriving DecidableEq

/-- Modelled from the spec: the per-node signal semantics live in the
platform's audio engine, not in this repository; §4.5 only fixes each
effect's topology.  We evaluate the graph on a constant (DC) test signal,
where a dB gain acts as a multiplicative linear gain; the transcendental
dB-to-linear conversion is replaced by the strictly monotone rational
surrogate `1 + g / 10` (exactness is irrelevant to order-sensitivity). -/
def dbGainApprox (g : ℚ) : ℚ := 1 + g / 10

/-- Modelled from the spec: the equalizer's three cascaded shelf/peaking
stages, each scaling the DC sample by its gain. -/
def equalizerSample (p : EqualizerParams) (x : ℚ) : ℚ :=
  dbGainApprox p.highGain * (dbGainApprox p.midGain * (dbGainApprox p.lowGain * x))

/-- Modelled from the spec: the compressor's single dynamics-compression stage
as a memoryless static curve with the given threshold and ratio — below the
threshold amplitude the sample passes unchanged, above it the excess is
divided by the ratio.  The dB threshold is converted to an amplitude by the
same rational surrogate. -/
def compressorSample (p : CompressorParams) (x : ℚ) : ℚ :=
  let thresholdAmp := dbGainApprox p.threshold
  if |x| ≤ thresholdAmp then x
  else (if x < 0 then -1 else 1) * (thresholdAmp + (|x| - thresholdAmp) / p.ratio)

/-- Modelled from the spec: on a DC test signal the reverb/delay/chorus
wet-plus-dry mixes sum their wet and dry gain paths. -/
def applyEffectSample (params : EffectParameters) (x : ℚ) : EffectKind → ℚ
  | .equalizer => equalizerSample params.equalizer x
  | .compressor => compressorSample params.compressor x
  | .reverb => params.reverbWetLevel * x + params.reverbDryLevel * x
  | .delay => params.delayWetLevel * x + params.delayDryLevel * x
  | .chorus => params.chorusWetLevel * x + params.chorusDryLevel * x

/-- From `processAudioWithEffects`: the offline graph chains the per-effect
topologies by iterating `activeEffects` front to back (`forEach`), each
iteration connecting the previous chain tail into the new effect's input; the
rendered output is therefore the left fold of the per-effect signal maps over
the activation list. -/
def processChainSample (params : EffectParameters) (activeEffects : List EffectKind)
    (x : ℚ) : ℚ :=
  activeEffects.foldl (fun acc e => applyEffectSample params acc e) x

/-- Concrete parameters exhibiting non-commutation: equalizer low shelf at
+10 dB (DC gain 2 under the surrogate), compressor threshold at -5 dB
(amplitude 1/2) with ratio 3. -/
def exParams : EffectParameters :=
  { equalizer := ⟨10, 0, 0⟩
    compressor := ⟨-5, 3, 3/1000, 1/4⟩
    reverbWetLevel := 3/10
    reverbDryLevel := 7/10
    delayWetLevel := 3/10
    delayDryLevel := 7/10
    chorusWetLevel := 2/5
    chorusDryLevel := 3/5 }

/-- C3: `toggleEffect` appends a newly activated effect at the end of the
activation list; chain processing composes the per-effect maps in exactly that
list order (splitting the list splits the composition); and the order matters:
with `exParams`, equalizer-then-compressor and compressor-then-equalizer give
different outputs on the unit DC sample. -/
theorem c3_effect_order (activeEffects : List EffectKind) (e : EffectKind)
    (he : e ∉ activeEffects) :
    toggleEffect activeEffects e = activeEffects ++ [e]
    ∧ (∀ (params : EffectParameters) (l₁ l₂ : List EffectKind) (x : ℚ),
        processChainSample params (l₁ ++ l₂) x
          = processChainSample params l₂ (processChainSample params l₁ x))
    ∧ processChainSample exParams [.equalizer, .compressor] 1
        ≠ processChainSample exParams [.compressor, .equalizer] 1 := by
  refine ⟨?_, ?_, ?_⟩
  · simp [toggleEffect, he]
  · intro params l₁ l₂ x
    simp [processChainSample, List.foldl_append]
  · have h1 : processChainSample exParams [.equalizer, .compressor] 1 = 1 := by
      norm_num [processChainSample, applyEffectSample, equalizerSample,
        compressorSample, dbGainApprox, exParams, abs_of_pos]
    have h2 : processChainSample exParams [.compressor, .equalizer] 1 = 4/3 := by
      norm_num [processChainSample, applyEffectSample, equalizerSample,
        compressorSample, dbGainApprox, exParams, abs_of_pos]
    rw [h1, h2]
    norm_num

/-- Witness for C3: activating the compressor after the equalizer appends it
to the end of the activation list. -/
theorem c3_effect_order_witness :
    toggleEffect [.equalizer] .compressor = [.equalizer, .compressor] :=
  (c3_effect_order [.equalizer] .compressor (by decide)).1

/-- The fields of a rendered `AudioBuffer` that `audioBufferToWav` reads:
sample rate, channel count, per-channel sample count, and the channel data
(`channelData ch i` is sample `i` of channel `ch`). -/
structure RenderedBuffer where
  sampleRate : ℕ
  numberOfChannels : ℕ
  sampleCount : ℕ
  channelData : ℕ → ℕ → ℚ

/-- Little-endian bytes of `DataView.setUint16` (low byte first, value
truncated to 16 bits). -/
def u16le (v : ℕ) : List ℕ := [v % 256, v / 256 % 256]

/-- Little-endian bytes of `DataView.setUint32`. -/
def u32le (v : ℕ) : List ℕ :=
  [v % 256, v / 256 % 256, v / 65536 % 256, v / 16777216 % 256]

/-- From `audioBufferToWav`: `Math.max(-1, Math.min(1, sample))`. -/
def clampSample (x : ℚ) : ℚ := max (-1) (min 1 x)

/-- JavaScript `Math.round`: half-up rounding, `⌊x + 1/2⌋`. -/
def jsRound (x : ℚ) : ℤ := ⌊x + 1 / 2⌋

/-- From `audioBufferToWav`: quantization of one sample,
`Math.round(clamped * 32767)`. -/
def sampleToInt (x : ℚ) : ℤ := jsRound (clampSample x * 32767)

/-- Little-endian bytes of `DataView.setInt16`: the 16-bit two's complement
representation, low byte first. -/
def i16le (v : ℤ) : List ℕ := u16le ((v % 65536).toNat)

/-- Inner loop of the data section: bytes of the first `ch` channels of
sample frame `i`, written in channel order. -/
def frameBytesAux (buf : RenderedBuffer) (i : ℕ) : ℕ → List ℕ
  | 0 => []
  | ch + 1 => frameBytesAux buf i ch ++ i16le (sampleToInt (buf.channelData ch i))

/-- One interleaved sample frame of the data section. -/
def frameBytes (buf : RenderedBuffer) (i : ℕ) : List ℕ :=
  frameBytesAux buf i buf.numberOfChannels

/-- Outer loop of the data section: the first `n` sample frames. -/
def dataBytesAux (buf : RenderedBuffer) : ℕ → List ℕ
  | 0 => []
  | i + 1 => dataBytesAux buf i ++ frameBytes buf i

/-- The complete data section written from offset 44 on. -/
def dataBytes (buf : RenderedBuffer) : List ℕ :=
  dataBytesAux buf buf.sampleCount

/-- The 44-byte RIFF/WAVE header written by `audioBufferToWav`, offsets 0-43:
RIFF tag, riff size, WAVE and fmt tags, fmt chunk size 16, PCM format 1,
channel count, sample rate, byte rate, block align, bits per sample 16,
data tag, data size. -/
def wavHeader (buf : RenderedBuffer) : List ℕ :=
  let blockAlign := buf.numberOfChannels * 2
  let byteRate := buf.sampleRate * blockAlign
  let dataSize := buf.sampleCount * blockAlign
  let bufferSize := 44 + dataSize
  [82, 73, 70, 70] ++ u32le (bufferSize - 8) ++ [87, 65, 86, 69] ++
    [102, 109, 116, 32] ++ u32le 16 ++ u16le 1 ++ u16le buf.numberOfChannels ++
    u32le buf.sampleRate ++ u32le byteRate ++ u16le blockAlign ++ u16le 16 ++
    [100, 97, 116, 97] ++ u32le dataSize

/-- `audioBufferToWav` from the effects panel: the full byte content of the
produced blob. -/
def audioBufferToWav (buf : RenderedBuffer) : List ℕ :=
  wavHeader buf ++ dataBytes buf

theorem drop_append_length {α : Type} (l₁ l₂ : List α) (n : ℕ) :
    (l₁ ++ l₂).drop (l₁.length + n) = l₂.drop n := by
  induction l₁ with
  | nil => simp
  | cons a l ih =>
    have harith : (a :: l).length + n = (l.length + n) + 1 := by
      simp [List.length_cons]
      omega
    rw [List.cons_append, harith, List.drop_succ_cons, ih]

theorem frameBytesAux_succ (buf : RenderedBuffer) (i c : ℕ) :
    frameBytesAux buf i (c + 1)
      = frameBytesAux buf i c ++ i16le (sampleToInt (buf.channelData c i)) := rfl

theorem dataBytesAux_succ (buf : RenderedBuffer) (n : ℕ) :
    dataBytesAux buf (n + 1) = dataBytesAux buf n ++ frameBytes buf n := rfl

theorem frameBytesAux_length (buf : RenderedBuffer) (i c : ℕ) :
    (frameBytesAux buf i c).length = 2 * c := by
  induction c with
  | zero => rfl
  | succ c ih =>
    rw [frameBytesAux_succ]
    simp [ih, i16le, u16le]
    omega

theorem dataBytesAux_length (buf : RenderedBuffer) (n : ℕ) :
    (dataBytesAux buf n).length = 2 * buf.numberOfChannels * n := by
  induction n with
  | zero => rfl
  | succ n ih =>
    rw [dataBytesAux_succ]
    simp [ih, frameBytes, frameBytesAux_length]
    ring

theorem wavHeader_length (buf : RenderedBuffer) :
    (wavHeader buf).length = 44 := rfl

theorem frameBytesAux_split (buf : RenderedBuffer) (i ch m : ℕ) :
    ∃ rest, frameBytesAux buf i (ch + m) = frameBytesAux buf i ch ++ rest := by
  induction m with
  | zero => exact ⟨[], by simp⟩
  | succ m ih =>
    obtain ⟨rest, hrest⟩ := ih
    refine ⟨rest ++ i16le (sampleToInt (buf.channelData (ch + m) i)), ?_⟩
    have harith : ch + (m + 1) = (ch + m) + 1 := by omega
    rw [harith, frameBytesAux_succ, hrest, List.append_assoc]

theorem dataBytesAux_split (buf : RenderedBuffer) (i m : ℕ) :
    ∃ rest, dataBytesAux buf (i + m) = dataBytesAux buf i ++ rest := by
  induction m with
  | zero => exact ⟨[], by simp⟩
  | succ m ih =>
    obtain ⟨rest, hrest⟩ := ih
    refine ⟨rest ++ frameBytes buf (i + m), ?_⟩
    have harith : i + (m + 1) = (i + m) + 1 := by omega
    rw [harith, dataBytesAux_succ, hrest, List.append_assoc]

theorem take_two_i16le_append (v : ℤ) (rest : List ℕ) :
    ((i16le v ++ rest).take 2) = i16le v := rfl

theorem dataBytes_extract (buf : RenderedBuffer) (i ch : ℕ)
    (hi : i < buf.sampleCount) (hch : ch < buf.numberOfChannels) :
    ((dataBytes buf).drop (2 * buf.numberOfChannels * i + 2 * ch)).take 2
      = i16le (sampleToInt (buf.channelData ch i)) := by
  obtain ⟨m, hm⟩ := Nat.exists_eq_add_of_lt hi
  obtain ⟨restI, hrestI⟩ := dataBytesAux_split buf (i + 1) m
  have hdata : dataBytes buf = (dataBytesAux buf i ++ frameBytes buf i) ++ restI := by
    have h1 : buf.sampleCount = (i + 1) + m := by omega
    rw [dataBytes, h1, hrestI, dataBytesAux_succ]
  obtain ⟨k, hk⟩ := Nat.exists_eq_add_of_lt hch
  obtain ⟨restC, hrestC⟩ := frameBytesAux_split buf i (ch + 1) k
  have hfb : frameBytes buf i
      = (frameBytesAux buf i ch ++ i16le (sampleToInt (buf.channelData ch i))) ++ restC := by
    have h2 : buf.numberOfChannels = (ch + 1) + k := by omega
    rw [frameBytes, h2, hrestC, frameBytesAux_succ]
  have hall : dataBytes buf
      = dataBytesAux buf i ++ (frameBytesAux buf i ch
          ++ (i16le (sampleToInt (buf.channelData ch i)) ++ (restC ++ restI))) := by
    rw [hdata, hfb]
    simp [List.append_assoc]
  rw [hall]
  have hstep1 : (dataBytesAux buf i ++ (frameBytesAux buf i ch
      ++ (i16le (sampleToInt (buf.channelData ch i)) ++ (restC ++ restI)))).drop
        (2 * buf.numberOfChannels * i + 2 * ch)
      = (frameBytesAux buf i ch
          ++ (i16le (sampleToInt (buf.channelData ch i)) ++ (restC ++ restI))).drop
            (2 * ch) := by
    have h := drop_append_length (dataBytesAux buf i)
      (frameBytesAux buf i ch
        ++ (i16le (sampleToInt (buf.channelData ch i)) ++ (restC ++ restI))) (2 * ch)
    rw [dataBytesAux_length] at h
    exact h
  have hstep2 : (frameBytesAux buf i ch
      ++ (i16le (sampleToInt (buf.channelData ch i)) ++ (restC ++ restI))).drop (2 * ch)
      = i16le (sampleToInt (buf.channelData ch i)) ++ (restC ++ restI) := by
    have h := drop_append_length (frameBytesAux buf i ch)
      (i16le (sampleToInt (buf.channelData ch i)) ++ (restC ++ restI)) 0
    rw [frameBytesAux_length] at h
    simpa using h
  rw [hstep1, hstep2]
  exact take_two_i16le_append _ _

/-- C2: the encoded blob is exactly `44 + sampleCount * channels * 2` bytes;
its header stores byte rate `sampleRate * channels * 2` (little-endian at
offset 28), block align `channels * 2` (offset 32) and data size
`sampleCount * channels * 2` (offset 40); the data section holds, for each
frame `i` and channel `ch`, the 16-bit little-endian quantization of the
sample clamped to `[-1, 1]`. -/
theorem c2_wav_encoder (buf : RenderedBuffer) :
    (audioBufferToWav buf).length
        = 44 + buf.sampleCount * buf.numberOfChannels * 2
    ∧ ((audioBufferToWav buf).drop 28).take 4
        = u32le (buf.sampleRate * buf.numberOfChannels * 2)
    ∧ ((audioBufferToWav buf).drop 32).take 2 = u16le (buf.numberOfChannels * 2)
    ∧ ((audioBufferToWav buf).drop 40).take 4
        = u32le (buf.sampleCount * buf.numberOfChannels * 2)
    ∧ (∀ i ch : ℕ, i < buf.sampleCount → ch < buf.numberOfChannels →
        ((audioBufferToWav buf).drop (44 + (i * buf.numberOfChannels + ch) * 2)).take 2
          = i16le (sampleToInt (buf.channelData ch i)))
    ∧ (∀ x : ℚ, -1 ≤ clampSample x ∧ clampSample x ≤ 1
        ∧ sampleToInt x = jsRound (clampSample x * 32767)) := by
  refine ⟨?_, ?_, ?_, ?_, ?_, ?_⟩
  · show (wavHeader buf ++ dataBytes buf).length = _
    rw [List.length_append, wavHeader_length, dataBytes, dataBytesAux_length]
    ring
  · have h28 : ((audioBufferToWav buf).drop 28).take 4
        = u32le (buf.sampleRate * (buf.numberOfChannels * 2)) := rfl
    rw [← mul_assoc] at h28
    exact h28
  · rfl
  · have h40 : ((audioBufferToWav buf).drop 40).take 4
        = u32le (buf.sampleCount * (buf.numberOfChannels * 2)) := rfl
    rw [← mul_assoc] at h40
    exact h40
  · intro i ch hi hch
    have hoff : 44 + (i * buf.numberOfChannels + ch) * 2
        = (wavHeader buf).length + (2 * buf.numberOfChannels * i + 2 * ch) := by
      rw [wavHeader_length]
      ring
    show ((wavHeader buf ++ dataBytes buf).drop _).take 2 = _
    rw [hoff, drop_append_length]
    exact dataBytes_extract buf i ch hi hch
  · intro x
    refine ⟨le_max_left _ _, max_le (by norm_num) (min_le_left 1 x), rfl⟩

/-- A one-channel one-sample buffer whose single sample 2 clamps to 1. -/
def exBuffer : RenderedBuffer := ⟨8000, 1, 1, fun _ _ => 2⟩

/-- Witness for C2: the example buffer encodes to 46 bytes and its single data
frame holds the quantization of its (clamped) sample. -/
theorem c2_wav_encoder_witness :
    ((audioBufferToWav exBuffer).drop
        (44 + (0 * exBuffer.numberOfChannels + 0) * 2)).take 2
      = i16le (sampleToInt (exBuffer.channelData 0 0))
    ∧ (audioBufferToWav exBuffer).length = 46 := by
  have h := c2_wav_encoder exBuffer
  refine ⟨h.2.2.2.2.1 0 0 (by norm_num [exBuffer]) (by norm_num [exBuffer]), ?_⟩
  rw [h.1]
  norm_num [exBuffer]
